import Mathlib

/-!
# Verification of the per-channel session orchestrator of claude-code-discord

Shallow embedding of the orchestration logic of the repository:

* `index.ts` (src/unnamed/part_002, second file): `createClaudeCodeBot` with its
  per-channel `ChannelSession` map, the `onMessage` busy-check / queueing step and
  the self-recursive `processMessage` queue drain, plus the global
  `activeChannelId`-routed `setController` / `setSessionId` closures;
* `claude/client.ts` (src/unnamed/part_002, first file): `createWorkspaceWriteGuard`,
  the startup/activity timers, and the retry skeleton of `sendToClaudeCode`;
* `claude/command.ts` (two revisions: src/unnamed/part_003 and part_004):
  `onClaude` and `onClaudeCancel`;
* `core/command-wrappers.ts`: the `/cancel` and `/new` slash-command wrappers.

All definitions are executable and translated from the TypeScript source; values
the source represents as returned objects vs thrown exceptions are modelled with
explicit sum types, and the external streaming task is an oracle parameter
supplying the raw termination of each attempt.
-/

namespace ClaudeCodeDiscord

/-- An `AbortController`: an identity (so a freshly allocated controller can be
distinguished from a previous one) and its `signal.aborted` flag. -/
structure AbortController where
  ident : Nat
  aborted : Bool
deriving Repr, DecidableEq

/-- `QueuedMessage` from `index.ts`: the reply context of the original Discord
message plus the computed prompt text.  The context is opaque to the
orchestrator, so it is modelled as a number. -/
structure QueuedMessage where
  ctx : Nat
  prompt : String
deriving Repr, DecidableEq

/-- `ChannelSession` from `index.ts`: per-channel controller slot, persisted
session id, working directory, optional channel name, and FIFO message queue. -/
structure ChannelSession where
  controller : Option AbortController
  sessionId : Option String
  channelWorkDir : String
  channelName : Option String
  messageQueue : List QueuedMessage
deriving Repr, DecidableEq

/-- The busy test of `onMessage` in `index.ts`:
`session.controller && !session.controller.signal.aborted`. -/
def sessionBusy (s : ChannelSession) : Bool :=
  match s.controller with
  | some c => !c.aborted
  | none => false

/-- The caller-visible effect of one `onMessage` submission. -/
inductive SubmitAction where
  /-- The "Queued" embed reply, carrying the reported 1-based position. -/
  | queued (position : Nat)
  /-- `processMessage` was entered with this prompt (a task starts). -/
  | dispatched (prompt : String)
deriving Repr, DecidableEq

/-- The queueing step of `onMessage` in `index.ts`: if the channel is busy the
message is pushed onto `messageQueue` and the caller is told the queue length
after the push; otherwise `processMessage` is entered with the prompt. -/
def onMessageSubmit (s : ChannelSession) (m : QueuedMessage) :
    ChannelSession × SubmitAction :=
  if sessionBusy s then
    let s' := { s with messageQueue := s.messageQueue ++ [m] }
    (s', .queued s'.messageQueue.length)
  else
    (s, .dispatched m.prompt)

/-- The dispatch sequence of the self-recursive `processMessage` in `index.ts`:
process the given message, then `shift()` the head of the queue and recurse on
it with the remaining queue. -/
def processMessageDispatch (m : QueuedMessage) (queue : List QueuedMessage) :
    List QueuedMessage :=
  match queue with
  | [] => [m]
  | next :: rest => m :: processMessageDispatch next rest

/-- Call depth (number of nested `processMessage` activations) of the
self-recursive drain in `index.ts`: one activation for the message in hand plus
one per recursion into the shifted queue head — `processMessage` calls itself
(`await processMessage(channelId, session, next.ctx, next.prompt)`) rather than
looping. -/
def processMessageDepth (_m : QueuedMessage) (queue : List QueuedMessage) : Nat :=
  match queue with
  | [] => 1
  | next :: rest => 1 + processMessageDepth next rest

/-- `onClaudeCancel` from `claude/command.ts` (identical in both revisions):
with no controller return `false` and do nothing; otherwise abort the
controller, null the controller slot, and clear the stored session id. -/
def onClaudeCancel (s : ChannelSession) : ChannelSession × Bool :=
  match s.controller with
  | none => (s, false)
  | some _ => ({ s with controller := none, sessionId := none }, true)

/-- The embed reply the `/cancel` wrapper builds (title / description only —
the reply carries no count of any kind). -/
structure CancelReply where
  title : String
  description : String
deriving Repr, DecidableEq

/-- The reply embed of `/cancel` when a session was cancelled. -/
def cancelledReply : CancelReply :=
  { title := "Cancelled", description := "Claude Code session cancelled." }

/-- The reply embed of `/cancel` when there was nothing to cancel. -/
def nothingToCancelReply : CancelReply :=
  { title := "Nothing to Cancel",
    description := "No running Claude Code session in this channel." }

/-- The `/cancel` slash command from `core/command-wrappers.ts`: run
`onClaudeCancel` and reply with a fixed embed chosen by the boolean. -/
def cancelCommand (s : ChannelSession) : ChannelSession × CancelReply :=
  let (s', cancelled) := onClaudeCancel s
  (s', if cancelled then cancelledReply else nothingToCancelReply)

/-- The `/new` slash command from `core/command-wrappers.ts`: run
`onClaudeCancel`, then explicitly clear the session id. -/
def newCommand (s : ChannelSession) : ChannelSession :=
  let (s', _) := onClaudeCancel s
  { s' with sessionId := none }

/-! ## The `sendToClaudeCode` retry / abort skeleton (`claude/client.ts`) -/

/-- The parameters `executeWithErrorHandling(overrideModel?, skipResume?)` is
invoked with; the first attempt uses `(undefined, undefined)` and the retry
uses the fallback model with resume skipped. -/
structure AttemptSpec where
  overrideModel : Option String
  skipResume : Bool
deriving Repr, DecidableEq

/-- How the body of one attempt terminates before the catch clause runs. -/
inductive RawTermination where
  /-- The `for await` loop ended: final session id, response text, and the
  state of `controller.signal.aborted`. -/
  | finished (sessionId : Option String) (response : String) (aborted : Bool)
  /-- An exception: its `name`, `message`, and `controller.signal.aborted` at
  catch time. -/
  | threw (name : String) (message : String) (ctrlAborted : Bool)
deriving Repr, DecidableEq

/-- One raw attempt of the external streaming task: the stderr it produced
(appended to the shared `stderrLines`) and its termination. -/
structure RawAttempt where
  stderr : String
  termination : RawTermination
deriving Repr, DecidableEq

/-- What `executeWithErrorHandling` hands back to `sendToClaudeCode` on its
non-throwing path. -/
structure ExecReturn where
  sessionId : Option String
  response : String
  aborted : Bool
  modelUsed : String
  stderrOutput : String
deriving Repr, DecidableEq

/-- Occurrence test over character lists: `sub` occurs in `hay` iff it is a
prefix of some suffix of `hay`. -/
def containsSub : List Char → List Char → Bool
  | [], sub => sub.isEmpty
  | c :: rest, sub => List.isPrefixOf sub (c :: rest) || containsSub rest sub

/-- `s.includes(sub)` of JavaScript: substring occurrence. -/
def includesSubstr (s sub : String) : Bool :=
  containsSub s.data sub.data

/-- `const shouldResume = cleanedSessionId && !continueMode && !skipResume`
(`claude/client.ts`); a present-but-empty cleaned id is falsy. -/
def shouldResume (cleanedSessionId : Option String) (continueMode skipResume : Bool) : Bool :=
  (match cleanedSessionId with
   | some s => !(s == "")
   | none => false) && !continueMode && !skipResume

/-- `executeWithErrorHandling` of `claude/client.ts`: the catch converts
`AbortError` / aborted-controller / "exited with code 143" errors into an
aborted return (`messages: [], response: "", sessionId: undefined,
aborted: true, modelUsed: "Default"`); any other error is rethrown with the
accumulated stderr attached.  `priorStderr` is the content of the shared
`stderrLines` before this attempt. -/
def executeWithErrorHandling (optModel : Option String) (spec : AttemptSpec)
    (priorStderr : String) (raw : RawAttempt) : Except (String × String) ExecReturn :=
  let modelToUse := (spec.overrideModel.orElse fun _ => optModel)
  let allStderr := priorStderr ++ raw.stderr
  match raw.termination with
  | .finished sid resp ab =>
    .ok { sessionId := sid, response := resp, aborted := ab,
          modelUsed := modelToUse.getD "Default", stderrOutput := allStderr }
  | .threw name msg ctrlAborted =>
    if name == "AbortError" || ctrlAborted || includesSubstr msg "exited with code 143" then
      .ok { sessionId := none, response := "", aborted := true,
            modelUsed := "Default", stderrOutput := allStderr }
    else
      .error (msg, allStderr)

/-- The fixed fallback model of the retry branch. -/
def fallbackModel : String := "claude-sonnet-4-20250514"

/-- The note appended to the second failure before it is rethrown. -/
def bothFailedNote : String :=
  "\n\n⚠️ Both default model and Sonnet 4 encountered errors. Please wait a moment and try again."

/-- The exit-code-1 signature test of the outer catch:
`error.message.includes('exit code 1') || error.message.includes('exited with code 1')`. -/
def exitCode1Sig (msg : String) : Bool :=
  includesSubstr msg "exit code 1" || includesSubstr msg "exited with code 1"

/-- The caller-visible settlement of `sendToClaudeCode`.  The source returns an
object for the first two cases and throws for the third.  `stderrOutput` is
`Option` because the retry-branch returns omit the field. -/
inductive SendResult where
  | ok (response : String) (sessionId : Option String) (modelUsed : String)
      (stderrOutput : Option String)
  | cancelled (modelUsed : String) (stderrOutput : Option String)
  | thrown (message : String) (stderrOutput : String)
deriving Repr, DecidableEq

/-- The control flow of `sendToClaudeCode` (`claude/client.ts`), with the
message-list bookkeeping (cost / duration extraction) elided.  `attempt` is the
oracle giving the raw behaviour of the external task for given attempt
parameters.  Besides the settlement, the list of attempt parameters actually
executed is returned, in order.  The retry catch re-checks the abort conditions
before rethrowing, but `executeWithErrorHandling` has already converted every
abort-style error into an aborted return, so that re-check is unreachable and
the model goes straight to appending the note. -/
def sendToClaudeCode (optModel : Option String) (attempt : AttemptSpec → RawAttempt) :
    SendResult × List AttemptSpec :=
  let spec1 : AttemptSpec := { overrideModel := none, skipResume := false }
  match executeWithErrorHandling optModel spec1 "" (attempt spec1) with
  | .ok r =>
    if r.aborted then
      (.cancelled r.modelUsed (some r.stderrOutput), [spec1])
    else
      (.ok (if r.response == "" then "No response received" else r.response)
        r.sessionId r.modelUsed (some r.stderrOutput), [spec1])
  | .error (msg, stderr1) =>
    if exitCode1Sig msg then
      let spec2 : AttemptSpec := { overrideModel := some fallbackModel, skipResume := true }
      match executeWithErrorHandling optModel spec2 stderr1 (attempt spec2) with
      | .ok r2 =>
        if r2.aborted then
          (.cancelled r2.modelUsed none, [spec1, spec2])
        else
          (.ok (if r2.response == "" then "No response received" else r2.response)
            r2.sessionId r2.modelUsed none, [spec1, spec2])
      | .error (msg2, stderr2) =>
        (.thrown (msg2 ++ bothFailedNote) stderr2, [spec1, spec2])
    else
      (.thrown msg stderr1, [spec1])

/-! ## The startup / activity timers (`claude/client.ts`) -/

/-- `STARTUP_TIMEOUT` (30 s). -/
def STARTUP_TIMEOUT_MS : Nat := 30000

/-- `ACTIVITY_TIMEOUT` (5 min). -/
def ACTIVITY_TIMEOUT_MS : Nat := 5 * 60 * 1000

/-- Which of the two timers fired. -/
inductive TimeoutKind where
  | startup
  | activity
deriving Repr, DecidableEq

/-- Activity phase of the timer logic: the timer is re-armed at each event to
fire `ACTIVITY_TIMEOUT_MS` later; it fires when the next event does not arrive
within the window (a tie goes to the timer). -/
def monitorActivityFrom (last : Nat) : List Nat → TimeoutKind × Nat
  | [] => (.activity, last + ACTIVITY_TIMEOUT_MS)
  | t :: ts =>
    if last + ACTIVITY_TIMEOUT_MS ≤ t then (.activity, last + ACTIVITY_TIMEOUT_MS)
    else monitorActivityFrom t ts

/-- Abort decision of the timers in `executeWithErrorHandling` for a hung task
that produces events at the given strictly increasing times (ms since start)
and then never finishes: the startup timer fires at `STARTUP_TIMEOUT_MS` if no
event arrived before it (`messageCount === 0`); the first event disarms it and
arms the activity timer.  Such a task is always eventually aborted. -/
def monitorAbortTime : List Nat → TimeoutKind × Nat
  | [] => (.startup, STARTUP_TIMEOUT_MS)
  | t :: ts =>
    if STARTUP_TIMEOUT_MS ≤ t then (.startup, STARTUP_TIMEOUT_MS)
    else monitorActivityFrom t ts

/-- The raw attempt observed after the monitor aborts a hung stream: the
`for await` loop sees `controller.signal.aborted` and breaks, so the attempt
finishes with the aborted flag set and the captured stderr. -/
def hungRawAttempt (stderr : String) : RawAttempt :=
  { stderr := stderr, termination := .finished none "" true }

/-- The raw attempt observed when the user aborts the controller and the SDK
iterator throws an `AbortError`. -/
def userCancelRawAttempt (stderr : String) : RawAttempt :=
  { stderr := stderr, termination := .threw "AbortError" "The operation was aborted" true }

/-! ## The `onClaude` handlers (`claude/command.ts`, both revisions) -/

/-- The slice of handler dependencies `onClaude` mutates through
`setClaudeController` / `setClaudeSessionId` (here resolved to one fixed
channel; the `activeChannelId` routing of those closures is modelled separately
on `BotState`). -/
structure DepsState where
  claudeController : Option AbortController
  claudeSessionId : Option String
deriving Repr, DecidableEq

/-- Whether the handler returned normally or let an exception escape. -/
inductive HandlerExit where
  | returned
  | raised (message : String)
deriving Repr, DecidableEq

/-- `onClaude` of `claude/command.ts` revision src/unnamed/part_003: abort any
existing controller, install a fresh one, await `sendToClaudeCode` with **no
try/catch**, then `setClaudeSessionId(result.sessionId)` and
`setClaudeController(null)`.  A thrown task error escapes before either setter
runs, leaving the fresh controller installed.  An aborted task settles
normally with `result.sessionId` undefined, clearing the stored id. -/
def onClaudeRevA (st : DepsState) (fresh : AbortController) (task : SendResult) :
    DepsState × HandlerExit :=
  let st1 : DepsState := { st with claudeController := some fresh }
  match task with
  | .ok _ sid _ _ =>
    ({ st1 with claudeSessionId := sid, claudeController := none }, .returned)
  | .cancelled _ _ =>
    ({ st1 with claudeSessionId := none, claudeController := none }, .returned)
  | .thrown msg _ =>
    (st1, .raised msg)

/-- `onClaude` of `claude/command.ts` revision src/unnamed/part_004, called
without an external controller: same success path, but the task is wrapped in
try/catch and the catch runs `setClaudeController(null)` and returns an error
report instead of rethrowing (the session id is not touched on that path). -/
def onClaudeRevB (st : DepsState) (fresh : AbortController) (task : SendResult) :
    DepsState × HandlerExit :=
  let st1 : DepsState := { st with claudeController := some fresh }
  match task with
  | .ok _ sid _ _ =>
    ({ st1 with claudeSessionId := sid, claudeController := none }, .returned)
  | .cancelled _ _ =>
    ({ st1 with claudeSessionId := none, claudeController := none }, .returned)
  | .thrown _ _ =>
    ({ st1 with claudeController := none }, .returned)

/-! ## The global `activeChannelId` routing (`index.ts`) -/

/-- The bot-level mutable state of `createClaudeCodeBot`: the channel-session
map and the single global `activeChannelId` that the `setController` /
`setSessionId` closures dereference. -/
structure BotState where
  channelSessions : List (String × ChannelSession)
  activeChannelId : Option String
deriving Repr, DecidableEq

/-- Association-map read of `channelSessions.get(id)`. -/
def findSession : List (String × ChannelSession) → String → Option ChannelSession
  | [], _ => none
  | (k, v) :: rest, id => if k = id then some v else findSession rest id

/-- Association-map write of `channelSessions.set(id, s)`. -/
def storeSession : List (String × ChannelSession) → String → ChannelSession →
    List (String × ChannelSession)
  | [], id, s => [(id, s)]
  | (k, v) :: rest, id, s =>
    if k = id then (id, s) :: rest else (k, v) :: storeSession rest id s

/-- `getChannelSession(channelId, channelName?)` from `index.ts`: lazily create
the entry with a null controller, no session id, the derived folder, and an
empty queue. -/
def getChannelSession (workDir : String) (st : BotState) (channelId : String)
    (channelName : Option String) : BotState × ChannelSession :=
  match findSession st.channelSessions channelId with
  | some s => (st, s)
  | none =>
    let folderName := channelName.getD channelId
    let s : ChannelSession :=
      { controller := none, sessionId := none,
        channelWorkDir := workDir ++ "/" ++ folderName,
        channelName := some folderName, messageQueue := [] }
    ({ st with channelSessions := storeSession st.channelSessions channelId s }, s)

/-- The `setController` closure of `createClaudeCodeBot`:
`if (activeChannelId) getChannelSession(activeChannelId).controller = controller`
— it writes to whatever channel is currently active, not to the channel whose
task invoked it. -/
def setControllerClosure (workDir : String) (st : BotState) (c : Option AbortController) :
    BotState :=
  match st.activeChannelId with
  | none => st
  | some id =>
    let (st', s) := getChannelSession workDir st id none
    { st' with channelSessions := storeSession st'.channelSessions id { s with controller := c } }

/-- The `setSessionId` closure of `createClaudeCodeBot` (the `saveSessionState`
disk write is elided): writes through the current `activeChannelId`. -/
def setSessionIdClosure (workDir : String) (st : BotState) (sid : Option String) :
    BotState :=
  match st.activeChannelId with
  | none => st
  | some id =>
    let (st', s) := getChannelSession workDir st id none
    { st' with channelSessions := storeSession st'.channelSessions id { s with sessionId := sid } }

/-- Task start for an idle channel: `onMessage` sets `activeChannelId` to the
channel and ensures its session exists; `processMessage` → `onClaude` then
installs a fresh controller through the `setController` closure. -/
def startTaskFor (workDir : String) (st : BotState) (channelId channelName : String)
    (fresh : AbortController) : BotState :=
  let st1 : BotState := { st with activeChannelId := some channelId }
  let (st2, _) := getChannelSession workDir st1 channelId (some channelName)
  setControllerClosure workDir st2 (some fresh)

/-- Task settlement: `onClaude` runs `setClaudeSessionId(result.sessionId)`
then `setClaudeController(null)` (`claude/command.ts`), both through the
closures — i.e. against whatever `activeChannelId` holds at settle time, which
nothing restores to the settling task's own channel. -/
def settleTask (workDir : String) (st : BotState) (resultSessionId : Option String) :
    BotState :=
  setControllerClosure workDir (setSessionIdClosure workDir st resultSessionId) none

/-! ## Concrete objects used in witnesses and counterexamples -/

/-- A sample busy session. -/
def busySession : ChannelSession :=
  { controller := some ⟨0, false⟩
    sessionId := some "sid-0"
    channelWorkDir := "/work/general"
    channelName := some "general"
    messageQueue := [] }

/-- A sample idle session. -/
def idleSession : ChannelSession :=
  { controller := none
    sessionId := some "sid-0"
    channelWorkDir := "/work/general"
    channelName := some "general"
    messageQueue := [] }

/-- A busy session with one queued item. -/
def busyQueuedSession : ChannelSession :=
  { busySession with messageQueue := [⟨9, "queued-A"⟩] }

/-- An oracle whose first and retry attempts both throw an exit-code-1 error. -/
def attemptBothFail : AttemptSpec → RawAttempt := fun spec =>
  if spec.skipResume then
    { stderr := "stderr-retry", termination := .threw "Error" "Claude Code process exited with code 1" false }
  else
    { stderr := "stderr-first", termination := .threw "Error" "Claude Code process exited with code 1" false }

/-- Channel A starts a task, then channel B starts a task (making B the active
channel), then A's task settles with session id "sidA". -/
def traceStateA : BotState := startTaskFor "/work" ⟨[], none⟩ "A" "alpha" ⟨1, false⟩

/-- See `traceStateA`. -/
def traceStateAB : BotState := startTaskFor "/work" traceStateA "B" "beta" ⟨2, false⟩

/-- See `traceStateA`. -/
def traceStateSettled : BotState := settleTask "/work" traceStateAB (some "sidA")

/-! ## The workspace write guard (`claude/client.ts`, `createWorkspaceWriteGuard`)

Paths are modelled at the character level (`List Char`), with the posix
behaviour of `node:path`:`resolve` / `normalize` spelled out on slash-separated
components, so that the guard's string comparisons
(`resolvedPath !== normalizedRoot`, `resolvedPath.startsWith(normalizedRoot + sep)`)
are the corresponding character-list comparisons. -/

/-- Split a character list at every `'/'`; the pieces carry no slash. -/
def splitSlash : List Char → List (List Char)
  | [] => [[]]
  | c :: cs =>
    if c = '/' then [] :: splitSlash cs
    else
      match splitSlash cs with
      | [] => [[c]]
      | g :: gs => (c :: g) :: gs

/-- The non-empty slash-separated components of a path string. -/
def pathComps (s : List Char) : List (List Char) :=
  (splitSlash s).filter (fun p => !p.isEmpty)

/-- Posix normalization of an absolute path's components: `.` is dropped, `..`
pops the previous component (and is dropped at the root). -/
def normalizeComps (comps : List (List Char)) : List (List Char) :=
  comps.foldl
    (fun acc c =>
      if c = ['.'] then acc
      else if c = ['.', '.'] then acc.dropLast
      else acc ++ [c]) []

/-- `normalize(resolve(cwd, p))` of `node:path` (posix), as the guard uses it:
an absolute `p` ignores `cwd` (taken absolute, as the bot passes it); the
result is the normalized absolute component list. -/
def resolveComps (cwd p : List Char) : List (List Char) :=
  match p with
  | '/' :: _ => normalizeComps (pathComps p)
  | _ => normalizeComps (pathComps cwd ++ pathComps p)

/-- Join components with `'/'` between them. -/
def joinSlash : List (List Char) → List Char
  | [] => []
  | [c] => c
  | c :: cs => c ++ '/' :: joinSlash cs

/-- Render a normalized absolute component list as the path string
`"/" ++ components joined by "/"`. -/
def renderAbs (comps : List (List Char)) : List Char :=
  '/' :: joinSlash comps

/-- The `writeToolPaths` table of `createWorkspaceWriteGuard`: write-capable
tools and their path input keys. -/
def writeToolPaths (toolName : String) : Option String :=
  if toolName = "Write" then some "file_path"
  else if toolName = "Edit" then some "file_path"
  else if toolName = "NotebookEdit" then some "notebook_path"
  else none

/-- A tool input record: input keys with their string values. -/
abbrev ToolInput := List (String × List Char)

/-- `input[pathKey]` lookup. -/
def lookupInput : ToolInput → String → Option (List Char)
  | [], _ => none
  | (k, v) :: rest, key => if k = key then some v else lookupInput rest key

/-- The guard's decision: `behavior: 'allow', updatedInput: input` or
`behavior: 'deny'` (the deny message is elided). -/
inductive GuardDecision where
  | allow (updatedInput : ToolInput)
  | deny
deriving Repr, DecidableEq

/-- `createWorkspaceWriteGuard(workspaceRootDir, cwd)` applied to one tool
invocation: `normalizedRoot = normalize(resolve(workspaceRootDir))` (resolved
against the process cwd); for a write-capable tool whose path input is present
and non-empty (truthy), deny iff the resolved path neither equals the
normalized root nor starts with the root followed by the separator; in every
other case allow with the input unchanged. -/
def canUseTool (processCwd workspaceRootDir cwd : List Char) (toolName : String)
    (input : ToolInput) : GuardDecision :=
  let normalizedRoot := renderAbs (resolveComps processCwd workspaceRootDir)
  match writeToolPaths toolName with
  | none => .allow input
  | some pathKey =>
    match lookupInput input pathKey with
    | none => .allow input
    | some filePath =>
      if filePath.isEmpty then .allow input
      else
        let resolvedPath := renderAbs (resolveComps cwd filePath)
        if !(resolvedPath == normalizedRoot) &&
            !(List.isPrefixOf (normalizedRoot ++ ['/']) resolvedPath) then
          .deny
        else
          .allow input

/-- Modelled from the claim's wording: the resolved location is the workspace
root itself or strictly inside it (the root's components are a proper prefix
of the resolved path's components). -/
def strictlyInsideOrRoot (rootComps resolvedComps : List (List Char)) : Prop :=
  rootComps = resolvedComps ∨ (rootComps <+: resolvedComps ∧ rootComps ≠ resolvedComps)

/-- Components are canonical: non-empty and slash-free. -/
def goodComps (cs : List (List Char)) : Prop :=
  ∀ c ∈ cs, c ≠ [] ∧ '/' ∉ c

instance (a b : List (List Char)) : Decidable (strictlyInsideOrRoot a b) := by
  unfold strictlyInsideOrRoot
  infer_instance

/-! ## Helper lemmas -/

theorem processMessageDispatch_eq (m : QueuedMessage) (q : List QueuedMessage) :
    processMessageDispatch m q = m :: q := by
  induction q generalizing m with
  | nil => rfl
  | cons next rest ih => simp [processMessageDispatch, ih]

theorem processMessageDepth_eq (m : QueuedMessage) (q : List QueuedMessage) :
    processMessageDepth m q = q.length + 1 := by
  induction q generalizing m with
  | nil => rfl
  | cons next rest ih => simp [processMessageDepth, ih]; omega

theorem splitSlash_no_slash (s : List Char) : ∀ g ∈ splitSlash s, '/' ∉ g := by
  induction s with
  | nil =>
    intro g hg
    simp only [splitSlash, List.mem_singleton] at hg
    simp [hg]
  | cons c cs ih =>
    intro g hg
    by_cases hc : c = '/'
    · simp only [splitSlash, if_pos hc, List.mem_cons] at hg
      rcases hg with hg | hg
      · simp [hg]
      · exact ih g hg
    · simp only [splitSlash, if_neg hc] at hg
      cases hsp : splitSlash cs with
      | nil =>
        rw [hsp] at hg
        simp only [List.mem_singleton] at hg
        subst hg
        simp only [List.mem_singleton]
        exact fun h => hc h.symm
      | cons g0 gs =>
        rw [hsp] at hg
        simp only [List.mem_cons] at hg
        rcases hg with hg | hg
        · subst hg
          intro hmem
          rcases List.mem_cons.mp hmem with h | h
          · exact hc h.symm
          · exact ih g0 (by rw [hsp]; exact List.mem_cons_self g0 gs) h
        · exact ih g (by rw [hsp]; exact List.mem_cons_of_mem g0 hg)

theorem pathComps_good (s : List Char) : goodComps (pathComps s) := by
  intro c hc
  simp only [pathComps, List.mem_filter, Bool.not_eq_true'] at hc
  obtain ⟨hmem, hne⟩ := hc
  refine ⟨?_, splitSlash_no_slash s c hmem⟩
  intro h
  subst h
  simp at hne

theorem goodComps_nil : goodComps [] := by
  intro c hc
  exact absurd hc (List.not_mem_nil c)

theorem foldl_norm_good (cs : List (List Char)) : ∀ acc : List (List Char),
    goodComps acc → goodComps cs →
    goodComps (cs.foldl
      (fun acc c =>
        if c = ['.'] then acc
        else if c = ['.', '.'] then acc.dropLast
        else acc ++ [c]) acc) := by
  induction cs with
  | nil =>
    intro acc hacc _
    simpa using hacc
  | cons c cs ih =>
    intro acc hacc hcs
    simp only [List.foldl_cons]
    apply ih
    · by_cases h1 : c = ['.']
      · simpa [h1] using hacc
      · by_cases h2 : c = ['.', '.']
        · simp only [if_neg h1, if_pos h2]
          intro x hx
          exact hacc x ((List.dropLast_prefix acc).subset hx)
        · simp only [if_neg h1, if_neg h2]
          intro x hx
          rcases List.mem_append.mp hx with h | h
          · exact hacc x h
          · simp only [List.mem_singleton] at h
            subst h
            exact hcs x (List.mem_cons_self x cs)
    · intro x hx
      exact hcs x (List.mem_cons_of_mem c hx)

theorem normalizeComps_good (cs : List (List Char)) (h : goodComps cs) :
    goodComps (normalizeComps cs) :=
  foldl_norm_good cs [] goodComps_nil h

theorem resolveComps_good (cwd p : List Char) : goodComps (resolveComps cwd p) := by
  unfold resolveComps
  split
  · exact normalizeComps_good _ (pathComps_good _)
  · apply normalizeComps_good
    intro c hc
    rcases List.mem_append.mp hc with h | h
    · exact pathComps_good cwd c h
    · exact pathComps_good p c h

theorem append_slash_prefix {a : List Char} (s t : List Char) :
    ∀ {b : List Char}, '/' ∉ a → '/' ∉ b →
    ((a ++ '/' :: s <+: b ++ '/' :: t) ↔ a = b ∧ s <+: t) := by
  induction a with
  | nil =>
    intro b ha hb
    cases b with
    | nil => simp [List.cons_prefix_cons]
    | cons x b' =>
      simp only [List.nil_append, List.cons_append, List.cons_prefix_cons]
      constructor
      · rintro ⟨h, -⟩
        exact absurd h.symm (fun hx => hb (hx ▸ List.mem_cons_self x b'))
      · rintro ⟨h, -⟩
        exact absurd h (by simp)
  | cons y a' ih =>
    intro b ha hb
    cases b with
    | nil =>
      simp only [List.cons_append, List.nil_append, List.cons_prefix_cons]
      constructor
      · rintro ⟨h, -⟩
        exact absurd h (fun hy => ha (hy ▸ List.mem_cons_self y a'))
      · rintro ⟨h, -⟩
        exact absurd h (by simp)
    | cons x b' =>
      have ha' : '/' ∉ a' := fun h => ha (List.mem_cons_of_mem y h)
      have hb' : '/' ∉ b' := fun h => hb (List.mem_cons_of_mem x h)
      simp only [List.cons_append, List.cons_prefix_cons]
      rw [ih ha' hb']
      simp [List.cons.injEq, and_assoc]

theorem append_slash_eq {a : List Char} (s t : List Char) :
    ∀ {b : List Char}, '/' ∉ a → '/' ∉ b →
    ((a ++ '/' :: s = b ++ '/' :: t) ↔ a = b ∧ s = t) := by
  induction a with
  | nil =>
    intro b ha hb
    cases b with
    | nil => simp
    | cons x b' =>
      simp only [List.nil_append, List.cons_append, List.cons.injEq]
      constructor
      · rintro ⟨h, -⟩
        exact absurd h.symm (fun hx => hb (hx ▸ List.mem_cons_self x b'))
      · rintro ⟨h, -⟩
        exact absurd h (by simp)
  | cons y a' ih =>
    intro b ha hb
    cases b with
    | nil =>
      simp only [List.cons_append, List.nil_append, List.cons.injEq]
      constructor
      · rintro ⟨h, -⟩
        exact absurd h (fun hy => ha (hy ▸ List.mem_cons_self y a'))
      · rintro ⟨h, -⟩
        exact absurd h (by simp)
    | cons x b' =>
      have ha' : '/' ∉ a' := fun h => ha (List.mem_cons_of_mem y h)
      have hb' : '/' ∉ b' := fun h => hb (List.mem_cons_of_mem x h)
      simp only [List.cons_append, List.cons.injEq]
      rw [ih ha' hb']
      simp [List.cons.injEq, and_assoc]

theorem joinSlash_slash_prefix : ∀ (xs ys : List (List Char)), goodComps xs →
    goodComps ys → xs ≠ [] →
    ((joinSlash xs ++ ['/'] <+: joinSlash ys) ↔ (xs <+: ys ∧ xs ≠ ys)) := by
  intro xs
  induction xs with
  | nil =>
    intro ys _ _ hne
    exact absurd rfl hne
  | cons a xs' ih =>
    intro ys hgx hgy _
    have ha : '/' ∉ a := (hgx a (List.mem_cons_self a xs')).2
    cases xs' with
    | nil =>
      cases ys with
      | nil =>
        simp only [joinSlash]
        constructor
        · intro h
          have := h.length_le
          simp at this
        · rintro ⟨h, -⟩
          have := h.length_le
          simp at this
      | cons b ys' =>
        have hb : '/' ∉ b := (hgy b (List.mem_cons_self b ys')).2
        cases ys' with
        | nil =>
          simp only [joinSlash]
          constructor
          · intro h
            exact absurd (h.subset (by simp)) hb
          · rintro ⟨h, hne⟩
            rcases List.cons_prefix_cons.mp h with ⟨hab, -⟩
            exact absurd (by rw [hab]) hne
        | cons b2 ys'' =>
          have key := append_slash_prefix ([] : List Char) (joinSlash (b2 :: ys'')) ha hb
          simp only [joinSlash]
          constructor
          · intro h
            have hk := key.mp h
            refine ⟨List.cons_prefix_cons.mpr ⟨hk.1, List.nil_prefix⟩, ?_⟩
            intro hcon
            exact absurd (congrArg List.length hcon) (by simp)
          · rintro ⟨h, -⟩
            rcases List.cons_prefix_cons.mp h with ⟨hab, -⟩
            exact key.mpr ⟨hab, List.nil_prefix⟩
    | cons a2 xs'' =>
      have hgx' : goodComps (a2 :: xs'') := fun c hc => hgx c (List.mem_cons_of_mem a hc)
      cases ys with
      | nil =>
        simp only [joinSlash]
        constructor
        · intro h
          have := h.length_le
          simp at this
        · rintro ⟨h, -⟩
          have := h.length_le
          simp at this
      | cons b ys' =>
        have hb : '/' ∉ b := (hgy b (List.mem_cons_self b ys')).2
        cases ys' with
        | nil =>
          simp only [joinSlash]
          constructor
          · intro h
            refine absurd (h.subset ?_) hb
            simp
          · rintro ⟨h, -⟩
            have := h.length_le
            simp at this
        | cons b2 ys'' =>
          have hgy' : goodComps (b2 :: ys'') := fun c hc => hgy c (List.mem_cons_of_mem b hc)
          have ihx := ih (b2 :: ys'') hgx' hgy' (by simp)
          have key := append_slash_prefix (joinSlash (a2 :: xs'') ++ ['/'])
            (joinSlash (b2 :: ys'')) ha hb
          simp only [joinSlash]
          rw [List.append_assoc, List.cons_append, key, ihx]
          constructor
          · rintro ⟨hab, htl, hne⟩
            refine ⟨List.cons_prefix_cons.mpr ⟨hab, htl⟩, ?_⟩
            intro hcon
            injection hcon with h1 h2
            exact hne h2
          · rintro ⟨hpre, hne⟩
            rcases List.cons_prefix_cons.mp hpre with ⟨hab, htl⟩
            refine ⟨hab, htl, ?_⟩
            intro hcon
            exact hne (by rw [hab, hcon])

theorem joinSlash_inj : ∀ (xs ys : List (List Char)), goodComps xs → goodComps ys →
    ((joinSlash xs = joinSlash ys) ↔ xs = ys) := by
  intro xs
  induction xs with
  | nil =>
    intro ys _ hgy
    cases ys with
    | nil => simp
    | cons b ys' =>
      have hbne : b ≠ [] := (hgy b (List.mem_cons_self b ys')).1
      cases ys' with
      | nil =>
        simp only [joinSlash]
        constructor
        · intro h
          exact absurd h.symm hbne
        · intro h
          simp at h
      | cons b2 ys'' =>
        simp only [joinSlash]
        constructor
        · intro h
          exact absurd (congrArg List.length h) (by simp; omega)
        · intro h
          simp at h
  | cons a xs' ih =>
    intro ys hgx hgy
    have ha : '/' ∉ a := (hgx a (List.mem_cons_self a xs')).2
    have hane : a ≠ [] := (hgx a (List.mem_cons_self a xs')).1
    cases xs' with
    | nil =>
      cases ys with
      | nil =>
        simp only [joinSlash]
        constructor
        · intro h
          exact absurd h hane
        · intro h
          simp at h
      | cons b ys' =>
        have hb : '/' ∉ b := (hgy b (List.mem_cons_self b ys')).2
        cases ys' with
        | nil =>
          simp only [joinSlash]
          simp [List.cons.injEq]
        | cons b2 ys'' =>
          simp only [joinSlash]
          constructor
          · intro h
            refine absurd ?_ ha
            rw [h]
            simp
          · intro h
            simp at h
    | cons a2 xs'' =>
      have hgx' : goodComps (a2 :: xs'') := fun c hc => hgx c (List.mem_cons_of_mem a hc)
      cases ys with
      | nil =>
        simp only [joinSlash]
        constructor
        · intro h
          exact absurd (congrArg List.length h) (by simp)
        · intro h
          simp at h
      | cons b ys' =>
        have hb : '/' ∉ b := (hgy b (List.mem_cons_self b ys')).2
        cases ys' with
        | nil =>
          simp only [joinSlash]
          constructor
          · intro h
            refine absurd ?_ hb
            rw [← h]
            simp
          · intro h
            simp at h
        | cons b2 ys'' =>
          have hgy' : goodComps (b2 :: ys'') := fun c hc => hgy c (List.mem_cons_of_mem b hc)
          simp only [joinSlash]
          rw [append_slash_eq _ _ ha hb, ih (b2 :: ys'') hgx' hgy']
          simp [List.cons.injEq]

theorem renderAbs_eq_iff (xs ys : List (List Char)) (hx : goodComps xs)
    (hy : goodComps ys) :
    (renderAbs xs = renderAbs ys) ↔ xs = ys := by
  simp only [renderAbs, List.cons.injEq, true_and]
  exact joinSlash_inj xs ys hx hy

theorem renderAbs_slash_prefix_iff (xs ys : List (List Char)) (hx : goodComps xs)
    (hy : goodComps ys) (hne : xs ≠ []) :
    ((renderAbs xs ++ ['/']) <+: renderAbs ys) ↔ (xs <+: ys ∧ xs ≠ ys) := by
  simp only [renderAbs, List.cons_append, List.cons_prefix_cons, true_and]
  exact joinSlash_slash_prefix xs ys hx hy hne

/-! ## Claim theorems -/

/-- C1: while a task is active (controller non-null and not aborted) a new
submission never starts a second task: it is appended to the pending queue and
acknowledged with the 1-based position equal to the queue length after the
append, with the controller untouched; only an idle channel dispatches
immediately. -/
theorem submit_busy_queues_idle_dispatches (s : ChannelSession) (m : QueuedMessage) :
    (sessionBusy s = true →
      (onMessageSubmit s m).2 = .queued (s.messageQueue.length + 1) ∧
      (onMessageSubmit s m).1.messageQueue = s.messageQueue ++ [m] ∧
      (onMessageSubmit s m).1.controller = s.controller ∧
      (∀ p, (onMessageSubmit s m).2 ≠ .dispatched p)) ∧
    (sessionBusy s = false →
      onMessageSubmit s m = (s, .dispatched m.prompt)) := by
  constructor
  · intro hbusy
    simp [onMessageSubmit, hbusy]
  · intro hidle
    simp [onMessageSubmit, hidle]

theorem submit_busy_queues_idle_dispatches_witness :
    ((onMessageSubmit busySession ⟨1, "A"⟩).2 = .queued 1 ∧
      (onMessageSubmit busySession ⟨1, "A"⟩).1.messageQueue = [⟨1, "A"⟩] ∧
      (onMessageSubmit busySession ⟨1, "A"⟩).1.controller = busySession.controller ∧
      (∀ p, (onMessageSubmit busySession ⟨1, "A"⟩).2 ≠ .dispatched p)) ∧
    onMessageSubmit idleSession ⟨1, "A"⟩ = (idleSession, .dispatched "A") := by
  refine ⟨?_, ?_⟩
  · have h := (submit_busy_queues_idle_dispatches busySession ⟨1, "A"⟩).1 (by decide)
    simpa [busySession] using h
  · exact (submit_busy_queues_idle_dispatches idleSession ⟨1, "A"⟩).2 (by decide)

/-- C2: submitting A, then B, then C while busy appends them in order (the
channel stays busy throughout), and after the active task `m` finishes the
self-recursive drain dispatches in exactly queue order: the dispatch sequence
of `processMessage` run on `m` with queue `q` is `m :: q`, each item processed
to completion before the next is shifted. -/
theorem busy_submissions_dispatch_in_order (s : ChannelSession)
    (a b c : QueuedMessage) (hbusy : sessionBusy s = true) :
    ∃ s₁ s₂ s₃,
      onMessageSubmit s a = (s₁, .queued (s.messageQueue.length + 1)) ∧
      onMessageSubmit s₁ b = (s₂, .queued (s.messageQueue.length + 2)) ∧
      onMessageSubmit s₂ c = (s₃, .queued (s.messageQueue.length + 3)) ∧
      s₃.messageQueue = s.messageQueue ++ [a, b, c] ∧
      ∀ m, processMessageDispatch m s₃.messageQueue = m :: (s.messageQueue ++ [a, b, c]) := by
  have hb1 : sessionBusy { s with messageQueue := s.messageQueue ++ [a] } = true := by
    simpa [sessionBusy] using hbusy
  have hb2 : sessionBusy { s with messageQueue := (s.messageQueue ++ [a]) ++ [b] } = true := by
    simpa [sessionBusy] using hbusy
  refine ⟨{ s with messageQueue := s.messageQueue ++ [a] },
    { s with messageQueue := (s.messageQueue ++ [a]) ++ [b] },
    { s with messageQueue := ((s.messageQueue ++ [a]) ++ [b]) ++ [c] },
    ?_, ?_, ?_, ?_, ?_⟩
  · simp [onMessageSubmit, hbusy]
  · simp only [onMessageSubmit, hb1, if_true]
    simp
  · simp only [onMessageSubmit, hb2, if_true]
    simp
  · simp
  · intro m
    simp [processMessageDispatch_eq]

theorem busy_submissions_dispatch_in_order_witness :
    ∃ s₁ s₂ s₃,
      onMessageSubmit busySession ⟨1, "A"⟩ = (s₁, .queued 1) ∧
      onMessageSubmit s₁ ⟨2, "B"⟩ = (s₂, .queued 2) ∧
      onMessageSubmit s₂ ⟨3, "C"⟩ = (s₃, .queued 3) ∧
      s₃.messageQueue = [⟨1, "A"⟩, ⟨2, "B"⟩, ⟨3, "C"⟩] ∧
      ∀ m, processMessageDispatch m s₃.messageQueue =
        m :: [⟨1, "A"⟩, ⟨2, "B"⟩, ⟨3, "C"⟩] := by
  have h := busy_submissions_dispatch_in_order busySession ⟨1, "A"⟩ ⟨2, "B"⟩ ⟨3, "C"⟩
    (by decide)
  simpa [busySession] using h

/-- C3 counterexample: cancelling a busy channel with one queued item replies
"Cancelled" but leaves the queue with that item — it is not emptied, and the
reply (title/description embed) reports no discarded count at all. -/
theorem cancel_leaves_queue_counterexample :
    (cancelCommand busyQueuedSession).2 = cancelledReply ∧
    (cancelCommand busyQueuedSession).1.messageQueue = [⟨9, "queued-A"⟩] ∧
    (cancelCommand busyQueuedSession).1.messageQueue ≠ [] := by
  refine ⟨rfl, rfl, by decide⟩

/-- C3 amended: cancel on a busy channel replies "Cancelled", aborts and clears
the handle (leaving the channel immediately eligible for a new task) and clears
the stored session id, but the pending queue is left untouched and no discarded
count is computed or reported; cancel on an idle channel replies "Nothing to
Cancel" with no side effects. -/
theorem cancel_busy_clears_handle_keeps_queue (s : ChannelSession) :
    (s.controller = none →
      cancelCommand s = (s, nothingToCancelReply)) ∧
    (s.controller ≠ none →
      (cancelCommand s).2 = cancelledReply ∧
      (cancelCommand s).1.controller = none ∧
      (cancelCommand s).1.sessionId = none ∧
      (cancelCommand s).1.messageQueue = s.messageQueue ∧
      sessionBusy (cancelCommand s).1 = false) := by
  cases hc : s.controller with
  | none =>
    refine ⟨fun _ => ?_, fun h => absurd rfl h⟩
    simp [cancelCommand, onClaudeCancel, hc]
  | some c =>
    refine ⟨fun h => by simp [hc] at h, fun _ => ?_⟩
    simp [cancelCommand, onClaudeCancel, hc, sessionBusy]

theorem cancel_busy_clears_handle_keeps_queue_witness :
    cancelCommand idleSession = (idleSession, nothingToCancelReply) ∧
    ((cancelCommand busyQueuedSession).2 = cancelledReply ∧
      (cancelCommand busyQueuedSession).1.controller = none ∧
      (cancelCommand busyQueuedSession).1.sessionId = none ∧
      (cancelCommand busyQueuedSession).1.messageQueue = busyQueuedSession.messageQueue ∧
      sessionBusy (cancelCommand busyQueuedSession).1 = false) :=
  ⟨(cancel_busy_clears_handle_keeps_queue idleSession).1 rfl,
   (cancel_busy_clears_handle_keeps_queue busyQueuedSession).2 (by decide)⟩

/-- C6: in the part_003 revision of `onClaude` there is no try/catch, so a task
that settles by throwing (here: the surfaced retried-failure of
`sendToClaudeCode` when both attempts raise the exit-code-1 error) escapes the
handler before `setClaudeController(null)` runs — the fresh cancellation handle
is left installed and the channel is wedged.  The part_004 revision clears the
handle in its catch on the same input. -/
theorem thrown_failure_wedges_channel :
    (onClaudeRevA ⟨none, some "sid-0"⟩ ⟨7, false⟩
        (sendToClaudeCode none attemptBothFail).1).1.claudeController = some ⟨7, false⟩ ∧
    (onClaudeRevA ⟨none, some "sid-0"⟩ ⟨7, false⟩
        (sendToClaudeCode none attemptBothFail).1).2 =
      .raised ("Claude Code process exited with code 1" ++ bothFailedNote) ∧
    (onClaudeRevB ⟨none, some "sid-0"⟩ ⟨7, false⟩
        (sendToClaudeCode none attemptBothFail).1).1.claudeController = none := by
  decide

/-- C7: settling a task started for channel A runs the `setSessionId` /
`setController` closures against the *current* `activeChannelId`.  After
channel B starts a task (making B active), A's settlement overwrites B's
session id with A's result and clears B's controller, while A's own handle
stays set — operations addressed to channel A mutate channel B's
ChannelSession. -/
theorem settle_mutates_wrong_channel :
    findSession traceStateAB.channelSessions "B" =
      some { controller := some ⟨2, false⟩, sessionId := none,
             channelWorkDir := "/work/beta", channelName := some "beta",
             messageQueue := [] } ∧
    findSession traceStateSettled.channelSessions "B" =
      some { controller := none, sessionId := some "sidA",
             channelWorkDir := "/work/beta", channelName := some "beta",
             messageQueue := [] } ∧
    findSession traceStateSettled.channelSessions "A" =
      some { controller := some ⟨1, false⟩, sessionId := none,
             channelWorkDir := "/work/alpha", channelName := some "alpha",
             messageQueue := [] } := by
  refine ⟨rfl, rfl, rfl⟩

/-- C8 counterexample: the call depth of the queue drain is not bounded by any
constant — `processMessage` recurses once per queued item. -/
theorem queue_drain_unbounded_depth_counterexample :
    ¬ ∃ bound : Nat, ∀ (m : QueuedMessage) (q : List QueuedMessage),
      processMessageDepth m q ≤ bound := by
  rintro ⟨bound, h⟩
  have hb := h ⟨0, "A"⟩ (List.replicate (bound + 1) ⟨0, "A"⟩)
  rw [processMessageDepth_eq] at hb
  simp [List.length_replicate] at hb
  omega

/-- C8 amended: the drain is a self-recursive continuation, not an explicit
loop: its activation depth is exactly N+1 for a queue of length N (linear in
N), while dispatch order remains FIFO. -/
theorem queue_drain_self_recursive_linear_depth (m : QueuedMessage)
    (q : List QueuedMessage) :
    processMessageDepth m q = q.length + 1 ∧ processMessageDispatch m q = m :: q :=
  ⟨processMessageDepth_eq m q, processMessageDispatch_eq m q⟩

/-- C9 counterexample: `/cancel` (not a new-session command) on a busy channel
with persisted session id "sid-0" clears the stored id; likewise a task
settling as aborted stores `result.sessionId` = undefined, clearing it. -/
theorem cancel_clears_session_id_counterexample :
    busySession.sessionId = some "sid-0" ∧
    (onClaudeCancel busySession).1.sessionId = none ∧
    (onClaudeRevA ⟨none, some "sid-0"⟩ ⟨5, false⟩
        (.cancelled "Default" none)).1.claudeSessionId = none := by
  refine ⟨rfl, rfl, rfl⟩

/-- C9 amended: the stored session id is overwritten by every settlement —
a completed task stores its own id, an aborted settlement stores undefined
(clearing it) — and `/cancel` on a busy channel clears it too; only cancel on
an idle channel leaves it intact.  `/new` clears it by explicit request. -/
theorem session_id_clearing_behaviour (s : ChannelSession) (st : DepsState)
    (fresh c : AbortController) (resp model : String) (sid so : Option String) :
    (onClaudeCancel { s with controller := some c }).1.sessionId = none ∧
    onClaudeCancel { s with controller := none } = ({ s with controller := none }, false) ∧
    (onClaudeRevA st fresh (.ok resp sid model so)).1.claudeSessionId = sid ∧
    (onClaudeRevA st fresh (.cancelled model so)).1.claudeSessionId = none ∧
    (newCommand s).sessionId = none := by
  refine ⟨rfl, rfl, rfl, rfl, ?_⟩
  cases hc : s.controller <;> simp [newCommand, onClaudeCancel, hc]

/-- C4: the retry policy of `sendToClaudeCode`.  A first attempt that returns
(completed, or aborted by cancellation/timeout) executes a single attempt and
is never retried.  A first attempt that raises without the exit-code-1
signature is surfaced as-is with no retry.  A raised exit-code-1 failure is
retried exactly once — the attempt trace is exactly the original parameters
followed by the fallback model with resume skipped (under which
`shouldResume` is false even when a resumption token exists) — and if the
retry also raises, there is no third attempt and the second failure is
surfaced with the note appended and the stderr accumulated across both
attempts. -/
theorem retry_once_on_exit_code_1 (optModel sid : Option String) (cont : Bool)
    (attempt : AttemptSpec → RawAttempt) :
    (∀ r, executeWithErrorHandling optModel ⟨none, false⟩ "" (attempt ⟨none, false⟩) = .ok r →
      (sendToClaudeCode optModel attempt).2 = [⟨none, false⟩]) ∧
    (∀ msg st,
      executeWithErrorHandling optModel ⟨none, false⟩ "" (attempt ⟨none, false⟩) = .error (msg, st) →
      (exitCode1Sig msg = false →
        (sendToClaudeCode optModel attempt).2 = [⟨none, false⟩] ∧
        (sendToClaudeCode optModel attempt).1 = .thrown msg st) ∧
      (exitCode1Sig msg = true →
        (sendToClaudeCode optModel attempt).2 =
          [⟨none, false⟩, ⟨some fallbackModel, true⟩] ∧
        shouldResume sid cont true = false ∧
        ∀ msg2 st2,
          executeWithErrorHandling optModel ⟨some fallbackModel, true⟩ st
            (attempt ⟨some fallbackModel, true⟩) = .error (msg2, st2) →
          (sendToClaudeCode optModel attempt).1 = .thrown (msg2 ++ bothFailedNote) st2 ∧
          st2 = st ++ (attempt ⟨some fallbackModel, true⟩).stderr)) := by
  constructor
  · intro r hr
    simp only [sendToClaudeCode, hr]
    by_cases hab : r.aborted <;> simp [hab]
  · intro msg st herr
    constructor
    · intro hsig
      simp [sendToClaudeCode, herr, hsig]
    · intro hsig
      refine ⟨?_, ?_, ?_⟩
      · simp only [sendToClaudeCode, herr, hsig]
        cases h2 : executeWithErrorHandling optModel ⟨some fallbackModel, true⟩ st
            (attempt ⟨some fallbackModel, true⟩) with
        | ok r2 => by_cases hab : r2.aborted <;> simp [hab]
        | error p => simp
      · simp [shouldResume]
      · intro msg2 st2 h2
        constructor
        · simp [sendToClaudeCode, herr, hsig, h2]
        · revert h2
          simp only [executeWithErrorHandling]
          cases (attempt ⟨some fallbackModel, true⟩).termination with
          | finished s r a => simp
          | threw n m ca =>
            by_cases hcond : (n == "AbortError" || ca || includesSubstr m "exited with code 143") = true
            · simp [hcond]
            · simp only [hcond]
              simp only [Bool.not_eq_true] at hcond
              simp [hcond]
              intro h1 h2
              exact h2.symm

theorem retry_once_on_exit_code_1_witness :
    (sendToClaudeCode none attemptBothFail).2 =
      [⟨none, false⟩, ⟨some fallbackModel, true⟩] ∧
    shouldResume (some "tok") false true = false ∧
    (sendToClaudeCode none attemptBothFail).1 =
      .thrown ("Claude Code process exited with code 1" ++ bothFailedNote)
        ("stderr-first" ++ "stderr-retry") := by
  have h := ((retry_once_on_exit_code_1 none (some "tok") false attemptBothFail).2
      "Claude Code process exited with code 1" "stderr-first" rfl).2 (by decide)
  refine ⟨h.1, h.2.1, ?_⟩
  exact (h.2.2 "Claude Code process exited with code 1" ("stderr-first" ++ "stderr-retry")
    rfl).1

/-- C5 counterexample: a task with zero events is aborted by the startup timer
at 30 s, but the outcome reported to the caller is the generic cancelled result
(`response: "Request was cancelled"` shape) carrying stderr — the very same
settlement value a user-initiated abort produces — so it is not reported as a
distinct StartupTimeout error; the settlement type of the code has no timeout
variant at all. -/
theorem timeout_reported_as_cancel_counterexample :
    monitorAbortTime [] = (.startup, STARTUP_TIMEOUT_MS) ∧
    (sendToClaudeCode none (fun _ => hungRawAttempt "diag")).1 =
      .cancelled "Default" (some "diag") ∧
    (sendToClaudeCode none (fun _ => userCancelRawAttempt "diag")).1 =
      .cancelled "Default" (some "diag") := by
  refine ⟨rfl, by decide, by decide⟩

/-- C5 amended: the startup timer aborts a stream with no event by 30 s, the
activity timer aborts a started-then-silent stream 5 min after its last event,
and in both cases the failure settles as a task outcome — the cancelled result
carrying the captured stderr — and never escapes as a throw; the outcome does
not say which timer fired (that distinction exists only in console logs). -/
theorem timeouts_abort_and_settle_as_outcome (t : Nat) (stderr : String)
    (optModel : Option String) :
    monitorAbortTime [] = (.startup, STARTUP_TIMEOUT_MS) ∧
    (∀ ts, STARTUP_TIMEOUT_MS ≤ t →
      monitorAbortTime (t :: ts) = (.startup, STARTUP_TIMEOUT_MS)) ∧
    (t < STARTUP_TIMEOUT_MS →
      monitorAbortTime [t] = (.activity, t + ACTIVITY_TIMEOUT_MS)) ∧
    (sendToClaudeCode optModel (fun _ => hungRawAttempt stderr)).1 =
      .cancelled (optModel.getD "Default") (some stderr) ∧
    (∀ msg st,
      (sendToClaudeCode optModel (fun _ => hungRawAttempt stderr)).1 ≠ .thrown msg st) := by
  refine ⟨rfl, ?_, ?_, ?_, ?_⟩
  · intro ts ht
    simp [monitorAbortTime, ht]
  · intro ht
    simp [monitorAbortTime, Nat.not_le_of_lt ht, monitorActivityFrom]
  · simp [sendToClaudeCode, executeWithErrorHandling, hungRawAttempt, Option.orElse]
  · intro msg st
    simp [sendToClaudeCode, executeWithErrorHandling, hungRawAttempt, Option.orElse]

theorem timeouts_abort_and_settle_as_outcome_witness :
    monitorAbortTime [40000] = (.startup, STARTUP_TIMEOUT_MS) ∧
    monitorAbortTime [10000] = (.activity, 10000 + ACTIVITY_TIMEOUT_MS) ∧
    (sendToClaudeCode none (fun _ => hungRawAttempt "diag")).1 =
      .cancelled "Default" (some "diag") ∧
    (∀ msg st,
      (sendToClaudeCode none (fun _ => hungRawAttempt "diag")).1 ≠ .thrown msg st) := by
  refine ⟨?_, ?_, ?_, ?_⟩
  · exact (timeouts_abort_and_settle_as_outcome 40000 "diag" none).2.1 [] (by decide)
  · exact (timeouts_abort_and_settle_as_outcome 10000 "diag" none).2.2.1 (by decide)
  · exact (timeouts_abort_and_settle_as_outcome 40000 "diag" none).2.2.2.1
  · exact (timeouts_abort_and_settle_as_outcome 40000 "diag" none).2.2.2.2

/-- C10 counterexample: with the workspace root configured as the filesystem
root "/", the write path "/a" resolves strictly inside the workspace root, yet
the guard denies it — `normalizedRoot + sep` is "//", which no normalized
absolute path starts with, and "/a" does not equal "/". -/
theorem workspace_guard_root_slash_counterexample :
    canUseTool "/".data "/".data "/".data "Write" [("file_path", "/a".data)] =
      .deny ∧
    strictlyInsideOrRoot (resolveComps "/".data "/".data)
      (resolveComps "/".data "/a".data) := by
  constructor
  · decide
  · decide

/-- C10 amended: provided the workspace root resolves to a non-root directory,
the guard denies exactly the write-tool invocations whose present, non-empty
path input resolves (against the task's working directory) to a location that
is neither the workspace root itself nor strictly inside it; every other
invocation — read/execute tools, a missing or empty path, or an in-workspace
path — is allowed with its input unchanged.  (With the workspace root at "/",
the strictly-inside allowance fails; see the counterexample.) -/
theorem workspace_guard_denies_exactly_outside_writes
    (processCwd root cwd : List Char) (toolName : String) (input : ToolInput)
    (hroot : resolveComps processCwd root ≠ []) :
    (canUseTool processCwd root cwd toolName input = .deny ↔
      ∃ pathKey filePath, writeToolPaths toolName = some pathKey ∧
        lookupInput input pathKey = some filePath ∧ filePath ≠ [] ∧
        ¬ strictlyInsideOrRoot (resolveComps processCwd root)
            (resolveComps cwd filePath)) ∧
    (canUseTool processCwd root cwd toolName input ≠ .deny →
      canUseTool processCwd root cwd toolName input = .allow input) := by
  have hgR := resolveComps_good processCwd root
  cases hw : writeToolPaths toolName with
  | none =>
    refine ⟨?_, ?_⟩
    · simp [canUseTool, hw]
    · intro _
      simp [canUseTool, hw]
  | some pathKey =>
    cases hl : lookupInput input pathKey with
    | none =>
      refine ⟨?_, ?_⟩
      · constructor
        · intro hd
          simp [canUseTool, hw, hl] at hd
        · rintro ⟨pk, f, hpk, hf, -, -⟩
          injection hpk with hpk
          subst hpk
          rw [hl] at hf
          exact Option.noConfusion hf
      · intro _
        simp [canUseTool, hw, hl]
    | some fp =>
      have hgP := resolveComps_good cwd fp
      by_cases hfe : fp.isEmpty
      · have hfp : fp = [] := by simpa using hfe
        refine ⟨?_, ?_⟩
        · constructor
          · intro hd
            simp [canUseTool, hw, hl, hfe] at hd
          · rintro ⟨pk, f, hpk, hf, hfne, -⟩
            injection hpk with hpk
            subst hpk
            rw [hl] at hf
            injection hf with hf
            exact absurd (hf ▸ hfp) hfne
        · intro _
          simp [canUseTool, hw, hl, hfe]
      · have hfp : fp ≠ [] := by
          intro h
          rw [h] at hfe
          simp at hfe
        by_cases hcond :
            (!(renderAbs (resolveComps cwd fp) ==
                renderAbs (resolveComps processCwd root)) &&
              !(List.isPrefixOf (renderAbs (resolveComps processCwd root) ++ ['/'])
                (renderAbs (resolveComps cwd fp)))) = true
        · have hout : ¬ strictlyInsideOrRoot (resolveComps processCwd root)
              (resolveComps cwd fp) := by
            simp only [Bool.and_eq_true, Bool.not_eq_true'] at hcond
            obtain ⟨hne', hnp⟩ := hcond
            intro hins
            rcases hins with heq | ⟨hpre, hneq⟩
            · rw [beq_eq_false_iff_ne] at hne'
              exact hne' ((renderAbs_eq_iff _ _ hgP hgR).mpr heq.symm)
            · have hp : (renderAbs (resolveComps processCwd root) ++ ['/']) <+:
                  renderAbs (resolveComps cwd fp) :=
                (renderAbs_slash_prefix_iff _ _ hgR hgP hroot).mpr ⟨hpre, hneq⟩
              have := List.isPrefixOf_iff_prefix.mpr hp
              rw [hnp] at this
              exact Bool.noConfusion this
          refine ⟨?_, ?_⟩
          · constructor
            · intro _
              exact ⟨pathKey, fp, rfl, hl, hfp, hout⟩
            · intro _
              simp [canUseTool, hw, hl, hfe, hcond]
          · intro hne
            exfalso
            apply hne
            simp [canUseTool, hw, hl, hfe, hcond]
        · have hcondf :
              (!(renderAbs (resolveComps cwd fp) ==
                  renderAbs (resolveComps processCwd root)) &&
                !(List.isPrefixOf (renderAbs (resolveComps processCwd root) ++ ['/'])
                  (renderAbs (resolveComps cwd fp)))) = false := by
            simpa using hcond
          have hins : strictlyInsideOrRoot (resolveComps processCwd root)
              (resolveComps cwd fp) := by
            rcases Bool.and_eq_false_iff.mp hcondf with h | h
            · simp only [Bool.not_eq_false'] at h
              rw [beq_iff_eq] at h
              exact Or.inl ((renderAbs_eq_iff _ _ hgP hgR).mp h).symm
            · simp only [Bool.not_eq_false'] at h
              have hp := List.isPrefixOf_iff_prefix.mp h
              have := (renderAbs_slash_prefix_iff _ _ hgR hgP hroot).mp hp
              exact Or.inr this
          refine ⟨?_, ?_⟩
          · constructor
            · intro hd
              simp [canUseTool, hw, hl, hfe, hcondf] at hd
            · rintro ⟨pk, f, hpk, hf, -, hnot⟩
              injection hpk with hpk
              subst hpk
              rw [hl] at hf
              injection hf with hf
              subst hf
              exact absurd hins hnot
          · intro _
            simp [canUseTool, hw, hl, hfe, hcondf]

theorem workspace_guard_denies_exactly_outside_writes_witness :
    canUseTool "/".data "/work".data "/work/chan".data "Write"
      [("file_path", "/etc/passwd".data)] = .deny ∧
    canUseTool "/".data "/work".data "/work/chan".data "Bash"
      [("command", "ls".data)] = .allow [("command", "ls".data)] := by
  constructor
  · exact (workspace_guard_denies_exactly_outside_writes "/".data "/work".data
      "/work/chan".data "Write" [("file_path", "/etc/passwd".data)]
      (by decide)).1.mpr
      ⟨"file_path", "/etc/passwd".data, rfl, by decide, by decide, by decide⟩
  · exact (workspace_guard_denies_exactly_outside_writes "/".data "/work".data
      "/work/chan".data "Bash" [("command", "ls".data)] (by decide)).2 (by decide)

end ClaudeCodeDiscord
